import Mathlib

/-!
Verification development for the Haunted House slot-machine engine
(`src/main.py`).  The engine's math core — the xoshiro256** PRNG, reel-strip
construction, grid sampling, payline evaluation, scatter free-spin awards,
progressive jackpots and the spin orchestrator `HauntedHouseSlot.spin` — is
embedded shallowly below.  Machine 64-bit integers are `Nat` with explicit
`% 2 ^ 64`; Python floats carrying money are idealised as `ℚ`, with Python's
`round(x, 2)` modelled as exact round-half-to-even at two decimals (`round2`).
-/

namespace HauntedHouse

/-! ## Xoshiro256** PRNG (`Xoshiro256StarStar`) -/

/-- The four 64-bit state words `self.s`. -/
structure RngState where
  s0 : ℕ
  s1 : ℕ
  s2 : ℕ
  s3 : ℕ
deriving DecidableEq

/-- `_rotl`: 64-bit rotate left. -/
def rotl64 (x k : ℕ) : ℕ := ((x <<< k) % 2 ^ 64) ||| (x >>> (64 - k))

/-- `next_uint64`: output and state update of xoshiro256**. -/
def nextUint64 (st : RngState) : ℕ × RngState :=
  let s0 := st.s0
  let s1 := st.s1
  let s2 := st.s2
  let s3 := st.s3
  let result := rotl64 ((s1 * 5) % 2 ^ 64) 7 * 9 % 2 ^ 64
  let t := (s1 <<< 17) % 2 ^ 64
  let s2 := s2 ^^^ s0
  let s3 := s3 ^^^ s1
  let s1 := s1 ^^^ s2
  let s0 := s0 ^^^ s3
  let s2 := s2 ^^^ t
  let s3 := rotl64 s3 45
  (result, ⟨s0, s1, s2, s3⟩)

/-- State advance by one draw. -/
def rngNext (r : RngState) : RngState := (nextUint64 r).2

/-- `random()`: `(next_uint64() >> 11) * (1.0 / (1 << 53))`, idealised over ℚ. -/
def randFloat (r : RngState) : ℚ × RngState :=
  ((((nextUint64 r).1 >>> 11 : ℕ) : ℚ) * (1 / 2 ^ 53), rngNext r)

/-- `randint(n)`: `next_uint64() % n` (the source raises for `n ≤ 0`;
every call site passes the positive reel-strip length). -/
def randint (n : ℕ) (r : RngState) : ℕ × RngState :=
  ((nextUint64 r).1 % n, rngNext r)

/-- `int.from_bytes(bs, "little")`. -/
def le64 (bs : List ℕ) : ℕ := bs.foldr (fun b acc => b + 256 * acc) 0

/-- The constructor's tail: split 32 little-endian bytes into four words and
remap the all-zero state to `s[0] = 1`. -/
def bytesToState (sb : List ℕ) : RngState :=
  let w0 := le64 (sb.take 8)
  let w1 := le64 ((sb.drop 8).take 8)
  let w2 := le64 ((sb.drop 16).take 8)
  let w3 := le64 ((sb.drop 24).take 8)
  if w0 = 0 ∧ w1 = 0 ∧ w2 = 0 ∧ w3 = 0 then ⟨1, 0, 0, 0⟩ else ⟨w0, w1, w2, w3⟩

/-- `Xoshiro256StarStar.__init__` on an explicit seed: a short seed is
extended by `(seed_bytes * (32 // len + 1))[:32]`; the empty seed raises
(`ZeroDivisionError`), modelled as `none`. -/
def xoshiroOfSeed (seed : List ℕ) : Option RngState :=
  if seed.length = 0 then none
  else if seed.length < 32 then
    some (bytesToState ((List.replicate (32 / seed.length + 1) seed).flatten.take 32))
  else some (bytesToState seed)

/-- Modelled from the spec's words for claim C10 only: the seed bytes
"cyclically repeated to fill 32 bytes". -/
def cyclicFill (seed : List ℕ) (m : ℕ) : List ℕ :=
  (List.range m).map fun i => seed.getD (i % seed.length) 0

/-! ## Exact two-decimal rounding

Python's `round(x, 2)` uses round-half-to-even; `rhe` is that rule on an
exact rational, and `round2 q = rhe (q * 100) / 100`. -/

/-- Round-half-to-even to the nearest integer. -/
def rhe (q : ℚ) : ℤ :=
  if q - ⌊q⌋ < 1 / 2 then ⌊q⌋
  else if 1 / 2 < q - ⌊q⌋ then ⌊q⌋ + 1
  else if ⌊q⌋ % 2 = 0 then ⌊q⌋ else ⌊q⌋ + 1

/-- `round(x, 2)`. -/
def round2 (q : ℚ) : ℚ := (rhe (q * 100) : ℚ) / 100

/-- A rational that is a whole number of cents. -/
def IsCents (q : ℚ) : Prop := ∃ n : ℤ, q = (n : ℚ) / 100

theorem rhe_intCast (n : ℤ) : rhe (n : ℚ) = n := by
  simp [rhe, Int.floor_intCast]

theorem round2_isCents (q : ℚ) : IsCents (round2 q) := ⟨rhe (q * 100), rfl⟩

theorem round2_eq_of_isCents {q : ℚ} (h : IsCents q) : round2 q = q := by
  obtain ⟨n, rfl⟩ := h
  have h100 : ((n : ℚ) / 100) * 100 = (n : ℚ) := by
    field_simp
  rw [round2, h100, rhe_intCast]

theorem isCents_intCast (n : ℤ) : IsCents (n : ℚ) :=
  ⟨n * 100, by push_cast; field_simp⟩

theorem isCents_zero : IsCents (0 : ℚ) := ⟨0, by norm_num⟩

theorem isCents_add {a b : ℚ} (ha : IsCents a) (hb : IsCents b) : IsCents (a + b) := by
  obtain ⟨m, rfl⟩ := ha
  obtain ⟨n, rfl⟩ := hb
  exact ⟨m + n, by push_cast; ring⟩

theorem isCents_sub {a b : ℚ} (ha : IsCents a) (hb : IsCents b) : IsCents (a - b) := by
  obtain ⟨m, rfl⟩ := ha
  obtain ⟨n, rfl⟩ := hb
  exact ⟨m - n, by push_cast; ring⟩

theorem isCents_listSum {l : List ℚ} (h : ∀ q ∈ l, IsCents q) : IsCents l.sum := by
  induction l with
  | nil => simpa using isCents_zero
  | cons a l ih =>
    rw [List.sum_cons]
    exact isCents_add (h a (by simp)) (ih fun q hq => h q (by simp [hq]))

/-! ## Symbols, paytable, paylines, bets (`SYMBOLS`, `PAYTABLE`, `PAYLINES`,
`BET_OPTIONS`, `START_BALANCE`) -/

inductive Sym where
  | beetle
  | spider
  | bat
  | ghost
  | goblin
  | skeleton
  | mummy
  | vampire
  | witch
  | werewolf
  | haunted_house
  | freespins
deriving DecidableEq, Fintype

/-- `SCATTER_SYMBOL`. -/
def scatterSymbol : Sym := Sym.freespins

/-- `PAYTABLE[s][3]`. -/
def pay3 : Sym → ℚ
  | .beetle => 0.5
  | .spider => 0.8
  | .bat => 1
  | .ghost => 1.2
  | .goblin => 1.5
  | .skeleton => 2
  | .mummy => 2.5
  | .vampire => 3
  | .witch => 4
  | .werewolf => 5
  | .haunted_house => 8
  | .freespins => 0

/-- `PAYTABLE[s][4]`. -/
def pay4 : Sym → ℚ
  | .beetle => 1
  | .spider => 1.5
  | .bat => 2
  | .ghost => 2.5
  | .goblin => 3
  | .skeleton => 4
  | .mummy => 5
  | .vampire => 7
  | .witch => 10
  | .werewolf => 15
  | .haunted_house => 25
  | .freespins => 0

/-- `PAYTABLE[s][5]`. -/
def pay5 : Sym → ℚ
  | .beetle => 2
  | .spider => 3
  | .bat => 4
  | .ghost => 5
  | .goblin => 7
  | .skeleton => 9
  | .mummy => 12
  | .vampire => 15
  | .witch => 25
  | .werewolf => 40
  | .haunted_house => 80
  | .freespins => 0

/-- `PAYTABLE[s].get(l, 0.0)`. -/
def payMult (s : Sym) (l : ℕ) : ℚ :=
  if l = 3 then pay3 s else if l = 4 then pay4 s else if l = 5 then pay5 s else 0

/-- `first in PAYTABLE`: every symbol but the scatter has a paytable entry. -/
abbrev inPaytable (s : Sym) : Prop := s ≠ Sym.freespins

/-- `PAYLINES`: row index per reel. -/
def paylines : List (List ℕ) :=
  [[1, 1, 1, 1, 1], [0, 0, 0, 0, 0], [2, 2, 2, 2, 2], [0, 1, 2, 1, 0], [2, 1, 0, 1, 2],
   [0, 0, 1, 2, 2], [2, 2, 1, 0, 0], [0, 1, 1, 1, 2], [2, 1, 1, 1, 0], [1, 0, 1, 2, 1]]

/-- `BET_OPTIONS`. -/
def betOptions : List ℤ := [1, 2, 3, 5, 10, 20, 50, 100]

/-- `START_BALANCE`. -/
def startBalance : ℚ := 10000

/-! ## Reel strips (`build_reel_strip`) -/

inductive Volatility where
  | LOW
  | MEDIUM
  | HIGH
deriving DecidableEq

/-- `base_counts`, in the dict's insertion order. -/
def baseCount : Sym → ℕ
  | .beetle => 24
  | .spider => 20
  | .bat => 18
  | .ghost => 16
  | .goblin => 10
  | .skeleton => 8
  | .mummy => 6
  | .vampire => 4
  | .witch => 3
  | .werewolf => 2
  | .haunted_house => 1
  | .freespins => 3

/-- The volatility adjustments of `build_reel_strip`. -/
def stripCount (v : Volatility) (s : Sym) : ℕ :=
  match v with
  | .MEDIUM => baseCount s
  | .LOW =>
    match s with
    | .beetle => baseCount .beetle + 8
    | .spider => baseCount .spider + 6
    | .bat => baseCount .bat + 4
    | .witch => max 1 (baseCount .witch - 1)
    | .werewolf => max 1 (baseCount .werewolf - 1)
    | .haunted_house => 1
    | .freespins => max 1 (baseCount .freespins - 1)
    | s => baseCount s
  | .HIGH =>
    match s with
    | .beetle => max 10 (baseCount .beetle - 8)
    | .spider => max 8 (baseCount .spider - 6)
    | .ghost => baseCount .ghost + 2
    | .goblin => baseCount .goblin + 2
    | .skeleton => baseCount .skeleton + 1
    | .mummy => baseCount .mummy + 1
    | .werewolf => baseCount .werewolf + 1
    | .haunted_house => baseCount .haunted_house + 1
    | s => baseCount s

/-- The symbols in the counts dict's insertion order. -/
def stripOrder : List Sym :=
  [.beetle, .spider, .bat, .ghost, .goblin, .skeleton, .mummy, .vampire, .witch,
   .werewolf, .haunted_house, .freespins]

/-- `build_reel_strip`: each symbol repeated by its final count, in order. -/
def buildReelStrip (v : Volatility) : List Sym :=
  (stripOrder.map fun s => List.replicate (stripCount v s) s).flatten

/-! ## Grid sampling (`_generate_grid`)

The engine duplicates one strip across the five reel slots
(`self.reel_strips = [strip[:] for _ in range(self.reels)]`), so a single
strip stands for all five reels.  The grid is the Python list-of-rows. -/

abbrev Grid := List (List Sym)

/-- `grid[r][c]`. -/
def gridGet (g : Grid) (r c : ℕ) : Sym := (g.getD r []).getD c Sym.beetle

/-- `_generate_grid`: five sequential bounded draws, reel 0 → 4; the window
at stop `st` shows `strip[(st-1) % n]`, `strip[st]`, `strip[(st+1) % n]`. -/
def generateGrid (strip : List Sym) (r0 : RngState) : Grid × List ℕ × RngState :=
  let n := strip.length
  let d0 := randint n r0
  let d1 := randint n d0.2
  let d2 := randint n d1.2
  let d3 := randint n d2.2
  let d4 := randint n d3.2
  let stops := [d0.1, d1.1, d2.1, d3.1, d4.1]
  ([stops.map fun st => strip.getD ((st + n - 1) % n) Sym.beetle,
    stops.map fun st => strip.getD st Sym.beetle,
    stops.map fun st => strip.getD ((st + 1) % n) Sym.beetle],
   stops, d4.2)

/-! ## Payline evaluation (`_evaluate_lines`) -/

/-- One entry of `win_details`. -/
structure LineWin where
  character : Sym
  count : ℕ
  path : List (ℕ × ℕ)
  paylineIndex : ℕ
  win : ℚ
deriving DecidableEq

/-- The five symbols along a payline: `grid[row_idx][reel_idx]`. -/
def lineSyms (g : Grid) (line : List ℕ) : List Sym :=
  line.enum.map fun rc => gridGet g rc.2 rc.1

/-- The `(row, reel)` coordinates along a payline. -/
def lineCoords (line : List ℕ) : List (ℕ × ℕ) :=
  line.enum.map fun rc => (rc.2, rc.1)

/-- The left-to-right run length: 1 plus the matching prefix of the tail. -/
def runLenOf (syms : List Sym) : ℕ :=
  match syms with
  | [] => 0
  | first :: rest => 1 + (rest.takeWhile fun s => s == first).length

/-- The body of `_evaluate_lines`' loop for one `(payline_index, line)`. -/
def lineStep (g : Grid) (bet : ℤ) (rtpMul fsMul : ℚ) (acc : List LineWin × ℚ)
    (pl : ℕ × List ℕ) : List LineWin × ℚ :=
  let syms := lineSyms g pl.2
  let first := syms.headD Sym.beetle
  if first = scatterSymbol then acc
  else
    let rl := runLenOf syms
    if 3 ≤ rl ∧ inPaytable first then
      let lineWin : ℚ := (bet : ℚ) * payMult first rl * rtpMul * fsMul
      if 0 < lineWin then
        (acc.1 ++ [⟨first, rl, (lineCoords pl.2).take rl, pl.1, round2 lineWin⟩],
         acc.2 + lineWin)
      else acc
    else acc

/-- `_evaluate_lines`: all 10 paylines in declared order; free spins double
every line win; the returned total is rounded to 2 decimals. -/
def evaluateLines (g : Grid) (bet : ℤ) (rtpMul : ℚ) (usingFree : Bool) :
    List LineWin × ℚ :=
  let fsMul : ℚ := if usingFree then 2 else 1
  let r := paylines.enum.foldl (lineStep g bet rtpMul fsMul) ([], 0)
  (r.1, round2 r.2)

/-! ## Scatters (`_evaluate_scatters`) -/

/-- All scatter coordinates, scanned row-major over the fixed 3×5 window. -/
def scatterPositions (g : Grid) : List (ℕ × ℕ) :=
  (List.range 3).flatMap fun r =>
    (List.range 5).filterMap fun c =>
      if gridGet g r c = scatterSymbol then some (r, c) else none

/-- The free-spin ladder: `3 → 10`, `4 → 12`, otherwise (≥ 5) `15`; below 3
nothing is awarded. -/
def scatterAward (count : ℕ) : ℕ :=
  if 3 ≤ count then (if count = 3 then 10 else if count = 4 then 12 else 15) else 0

/-- `_evaluate_scatters` as (positions, spins awarded). -/
def evaluateScatters (g : Grid) : List (ℕ × ℕ) × ℕ :=
  (scatterPositions g, scatterAward (scatterPositions g).length)

/-! ## Progressive jackpots (`_roll_jackpots`) -/

inductive JName where
  | mini
  | minor
  | jackpot
  | grand
deriving DecidableEq

/-- The four `current` pool values. -/
structure Jackpots where
  mini : ℚ
  minor : ℚ
  jackpot : ℚ
  grand : ℚ
deriving DecidableEq

def jGet (j : Jackpots) : JName → ℚ
  | .mini => j.mini
  | .minor => j.minor
  | .jackpot => j.jackpot
  | .grand => j.grand

def jSet (j : Jackpots) : JName → ℚ → Jackpots
  | .mini, v => { j with mini := v }
  | .minor, v => { j with minor := v }
  | .jackpot, v => { j with jackpot := v }
  | .grand, v => { j with grand := v }

def jMap (f : ℚ → ℚ) (j : Jackpots) : Jackpots :=
  ⟨f j.mini, f j.minor, f j.jackpot, f j.grand⟩

/-- Each tier's `base` reset value. -/
def jackpotBase : JName → ℚ
  | .mini => 20
  | .minor => 50
  | .jackpot => 500
  | .grand => 2500

/-- `_jackpot_base_probs`. -/
def jackpotBaseProb : JName → ℚ
  | .mini => 1 / 500
  | .minor => 1 / 2000
  | .jackpot => 1 / 25000
  | .grand => 1 / 500000

/-- `scale = max(0.1, min(5.0, bet / 10.0))`. -/
def jscale (bet : ℤ) : ℚ := max (1 / 10) (min 5 ((bet : ℚ) / 10))

/-- The effective per-tier win probability, capped at 0.25. -/
def jprob (bet : ℤ) (t : JName) : ℚ := min (jackpotBaseProb t * jscale bet) (1 / 4)

/-- One entry of `_roll_jackpots`' result. -/
structure JackpotWin where
  name : JName
  amount : ℚ
deriving DecidableEq

/-- The tiers in the `self.jackpots` dict's insertion order. -/
def tierOrder : List JName := [.mini, .minor, .jackpot, .grand]

/-- One iteration of `_roll_jackpots`' loop: draw, compare strictly, award
the rounded current value and reset to base on a win. -/
def rollStep (bet : ℤ) (acc : List JackpotWin × Jackpots × RngState) (t : JName) :
    List JackpotWin × Jackpots × RngState :=
  let q := (randFloat acc.2.2).1
  let r := (randFloat acc.2.2).2
  if q < jprob bet t then
    (acc.1 ++ [⟨t, round2 (jGet acc.2.1 t)⟩], jSet acc.2.1 t (jackpotBase t), r)
  else (acc.1, acc.2.1, r)

/-- `_roll_jackpots`. -/
def rollJackpots (bet : ℤ) (cur : Jackpots) (r0 : RngState) :
    List JackpotWin × Jackpots × RngState :=
  tierOrder.foldl (rollStep bet) ([], cur, r0)

/-! ## The engine (`HauntedHouseSlot`) -/

inductive RtpMode where
  | TIGHT
  | STANDARD
  | LOOSE
deriving DecidableEq

/-- The RTP scaling factor chosen in `__init__`. -/
def rtpMulOf : RtpMode → ℚ
  | .LOOSE => 1.1
  | .TIGHT => 0.9
  | .STANDARD => 1

/-- The engine's mutable fields.  The five identical reel strips are kept as
one strip; the volatility / RTP strings survive only through `strip` and
`rtpMul`. -/
structure EngineState where
  balance : ℚ
  freeSpins : ℕ
  inFreeSpins : Bool
  fsSessionTotal : ℚ
  jackpots : Jackpots
  rng : RngState
  strip : List Sym
  rtpMul : ℚ
deriving DecidableEq

/-- `HauntedHouseSlot.__init__`, with the RNG state passed explicitly (the
source draws it from `os.urandom(32)` or an explicit seed). -/
def mkEngine (v : Volatility) (m : RtpMode) (r : RngState) : EngineState :=
  { balance := startBalance, freeSpins := 0, inFreeSpins := false,
    fsSessionTotal := 0, jackpots := ⟨20, 50, 500, 2500⟩, rng := r,
    strip := buildReelStrip v, rtpMul := rtpMulOf m }

/-- The result dict of a successful `spin`. -/
structure Outcome where
  grid : Grid
  bet : ℤ
  win : ℚ
  balance : ℚ
  winDetails : List LineWin
  freeSpins : ℕ
  inFreeSpins : Bool
  freespinsCells : List (ℕ × ℕ)
  freeSpinsAwarded : Bool
  jackpotWins : List JackpotWin
  jackpots : Jackpots
  fsSessionTotal : ℚ
  fsSessionFinal : Option ℚ
  fsJustEnded : Bool
deriving DecidableEq

/-- `spin`'s return value: the error dict or the result dict. -/
inductive SpinResult where
  | err
  | ok (o : Outcome)
deriving DecidableEq

/-- The base-mode debit and jackpot accrual:
`self.balance -= bet; inc = round(0.01 * bet, 2);
j["current"] = round(j["current"] + inc, 2)` for each pool. -/
def accrue (s : EngineState) (bet : ℤ) : EngineState :=
  let inc := round2 ((bet : ℚ) / 100)
  { s with balance := s.balance - (bet : ℚ),
           jackpots := jMap (fun c => round2 (c + inc)) s.jackpots }

/-- The body of `spin` after validation and the base-mode debit/accrual:
grid, lines, scatters, jackpot rolls, totals and free-spin bookkeeping. -/
def spinCore (s2 : EngineState) (bet : ℤ) (usingFree : Bool) :
    Outcome × EngineState :=
  let gg := generateGrid s2.strip s2.rng
  let grid := gg.1
  let ev := evaluateLines grid bet s2.rtpMul usingFree
  let sc := evaluateScatters grid
  let fsAfterAward := s2.freeSpins + sc.2
  let rj := rollJackpots bet s2.jackpots gg.2.2
  let jackpotSum := round2 (rj.1.map JackpotWin.amount).sum
  let totalWin := round2 (ev.2 + jackpotSum)
  let newBalance := round2 (s2.balance + totalWin)
  let fsRemaining := if usingFree then fsAfterAward - 1 else fsAfterAward
  let justEnded : Bool := usingFree && decide (fsRemaining = 0)
  let sessTotal1 := if usingFree then round2 (s2.fsSessionTotal + totalWin)
                    else s2.fsSessionTotal
  let sessFinal : Option ℚ := if justEnded then some (round2 sessTotal1) else none
  let sessTotal2 := if justEnded then 0 else sessTotal1
  ({ grid := grid, bet := bet, win := totalWin, balance := newBalance,
     winDetails := ev.1, freeSpins := fsRemaining, inFreeSpins := usingFree,
     freespinsCells := if 3 ≤ sc.1.length then sc.1 else [],
     freeSpinsAwarded := decide (3 ≤ sc.1.length),
     jackpotWins := rj.1,
     jackpots := jMap round2 rj.2.1,
     fsSessionTotal := round2 sessTotal2,
     fsSessionFinal := sessFinal,
     fsJustEnded := justEnded },
   { s2 with
     balance := newBalance, freeSpins := fsRemaining,
     fsSessionTotal := sessTotal2, jackpots := rj.2.1, rng := rj.2.2 })

/-- `HauntedHouseSlot.spin`.  Note the source sets `self.in_free_spins`
before validating the bet. -/
def spin (s0 : EngineState) (bet : ℤ) : SpinResult × EngineState :=
  let usingFree : Bool := decide (0 < s0.freeSpins)
  let s1 := { s0 with inFreeSpins := usingFree }
  if usingFree = false ∧ (bet ∉ betOptions ∨ s1.balance < (bet : ℚ)) then
    (SpinResult.err, s1)
  else
    let r := spinCore (if usingFree then s1 else accrue s1 bet) bet usingFree
    (SpinResult.ok r.1, r.2)

/-- The grid `spin s` samples (the RNG is untouched before sampling). -/
def spinGrid (s : EngineState) : Grid := (generateGrid s.strip s.rng).1

/-- The RNG state after `spin s` has sampled its grid. -/
def rngAfterGrid (s : EngineState) : RngState := (generateGrid s.strip s.rng).2.2

/-- The sequence of spin results from an engine fed a list of bets. -/
def runOutcomes (s : EngineState) (bets : List ℤ) : List SpinResult :=
  (bets.foldl (fun acc b => (acc.1 ++ [(spin acc.2 b).1], (spin acc.2 b).2))
    ([], s)).1

/-- The engine state after a list of bets. -/
def runState (s : EngineState) (bets : List ℤ) : EngineState :=
  bets.foldl (fun t b => (spin t b).2) s

/-! ## Unfolding lemmas for `spin` -/

theorem spin_invalid {s : EngineState} {bet : ℤ} (h0 : s.freeSpins = 0)
    (hbad : bet ∉ betOptions ∨ s.balance < (bet : ℚ)) :
    spin s bet = (SpinResult.err, { s with inFreeSpins := false }) := by
  have hfree : decide (0 < s.freeSpins) = false := by simp [h0]
  simp only [spin, hfree]
  rw [if_pos ⟨trivial, hbad⟩]

theorem spin_base {s : EngineState} {bet : ℤ} (h0 : s.freeSpins = 0)
    (hb : bet ∈ betOptions) (hle : (bet : ℚ) ≤ s.balance) :
    spin s bet =
      (SpinResult.ok (spinCore (accrue { s with inFreeSpins := false } bet) bet false).1,
       (spinCore (accrue { s with inFreeSpins := false } bet) bet false).2) := by
  have hfree : decide (0 < s.freeSpins) = false := by simp [h0]
  simp only [spin, hfree]
  rw [if_neg]
  · simp
  · rintro ⟨-, hb2 | hlt⟩
    · exact hb2 hb
    · exact absurd hlt (not_lt.mpr hle)

theorem spin_free {s : EngineState} {bet : ℤ} (h : 0 < s.freeSpins) :
    spin s bet =
      (SpinResult.ok (spinCore { s with inFreeSpins := true } bet true).1,
       (spinCore { s with inFreeSpins := true } bet true).2) := by
  have hfree : decide (0 < s.freeSpins) = true := by simp [h]
  simp only [spin, hfree]
  rw [if_neg]
  · simp
  · rintro ⟨hcontra, -⟩
    exact Bool.noConfusion hcontra

/-! ## Projection lemmas for `spinCore` and `accrue` -/

theorem spinCore_win (s2 : EngineState) (bet : ℤ) (uf : Bool) :
    (spinCore s2 bet uf).1.win =
      round2 ((evaluateLines (generateGrid s2.strip s2.rng).1 bet s2.rtpMul uf).2
        + round2 (((rollJackpots bet s2.jackpots
            (generateGrid s2.strip s2.rng).2.2).1.map JackpotWin.amount).sum)) := rfl

theorem spinCore_state_balance (s2 : EngineState) (bet : ℤ) (uf : Bool) :
    (spinCore s2 bet uf).2.balance = round2 (s2.balance + (spinCore s2 bet uf).1.win) := rfl

theorem spinCore_outcome_balance (s2 : EngineState) (bet : ℤ) (uf : Bool) :
    (spinCore s2 bet uf).1.balance = (spinCore s2 bet uf).2.balance := rfl

theorem spinCore_jackpotWins (s2 : EngineState) (bet : ℤ) (uf : Bool) :
    (spinCore s2 bet uf).1.jackpotWins =
      (rollJackpots bet s2.jackpots (generateGrid s2.strip s2.rng).2.2).1 := rfl

theorem spinCore_state_jackpots (s2 : EngineState) (bet : ℤ) (uf : Bool) :
    (spinCore s2 bet uf).2.jackpots =
      (rollJackpots bet s2.jackpots (generateGrid s2.strip s2.rng).2.2).2.1 := rfl

theorem spinCore_winDetails (s2 : EngineState) (bet : ℤ) (uf : Bool) :
    (spinCore s2 bet uf).1.winDetails =
      (evaluateLines (generateGrid s2.strip s2.rng).1 bet s2.rtpMul uf).1 := rfl

theorem spinCore_state_freeSpins (s2 : EngineState) (bet : ℤ) (uf : Bool) :
    (spinCore s2 bet uf).2.freeSpins =
      if uf then s2.freeSpins + (evaluateScatters (generateGrid s2.strip s2.rng).1).2 - 1
      else s2.freeSpins + (evaluateScatters (generateGrid s2.strip s2.rng).1).2 := rfl

theorem accrue_balance (s : EngineState) (bet : ℤ) :
    (accrue s bet).balance = s.balance - (bet : ℚ) := rfl

theorem accrue_jackpots (s : EngineState) (bet : ℤ) :
    (accrue s bet).jackpots =
      jMap (fun c => round2 (c + round2 ((bet : ℚ) / 100))) s.jackpots := rfl

theorem jGet_jMap (f : ℚ → ℚ) (j : Jackpots) (t : JName) :
    jGet (jMap f j) t = f (jGet j t) := by
  cases t <;> rfl

/-! ## A closed form for `_roll_jackpots` -/

/-- The `random()` value consumed for each tier: the roll draws once per
tier, in the dict's order mini, minor, jackpot, grand. -/
def tierDraw (r : RngState) : JName → ℚ
  | .mini => (randFloat r).1
  | .minor => (randFloat (rngNext r)).1
  | .jackpot => (randFloat (rngNext (rngNext r))).1
  | .grand => (randFloat (rngNext (rngNext (rngNext r)))).1

theorem rollStep_mk (bet : ℤ) (w : List JackpotWin) (j : Jackpots) (r : RngState)
    (t : JName) :
    rollStep bet (w, j, r) t =
      if (randFloat r).1 < jprob bet t then
        (w ++ [⟨t, round2 (jGet j t)⟩], jSet j t (jackpotBase t), rngNext r)
      else (w, j, rngNext r) := rfl

theorem rollJackpots_eq (bet : ℤ) (cur : Jackpots) (r : RngState) :
    rollJackpots bet cur r =
      ((if tierDraw r .mini < jprob bet .mini then [⟨.mini, round2 cur.mini⟩] else [])
        ++ ((if tierDraw r .minor < jprob bet .minor then [⟨.minor, round2 cur.minor⟩] else [])
        ++ ((if tierDraw r .jackpot < jprob bet .jackpot then [⟨.jackpot, round2 cur.jackpot⟩] else [])
        ++ (if tierDraw r .grand < jprob bet .grand then [⟨.grand, round2 cur.grand⟩] else []))),
       ⟨if tierDraw r .mini < jprob bet .mini then jackpotBase .mini else cur.mini,
        if tierDraw r .minor < jprob bet .minor then jackpotBase .minor else cur.minor,
        if tierDraw r .jackpot < jprob bet .jackpot then jackpotBase .jackpot else cur.jackpot,
        if tierDraw r .grand < jprob bet .grand then jackpotBase .grand else cur.grand⟩,
       rngNext (rngNext (rngNext (rngNext r)))) := by
  simp only [rollJackpots, tierOrder, List.foldl_cons, List.foldl_nil, tierDraw]
  by_cases h0 : (randFloat r).1 < jprob bet JName.mini <;>
  by_cases h1 : (randFloat (rngNext r)).1 < jprob bet JName.minor <;>
  by_cases h2 : (randFloat (rngNext (rngNext r))).1 < jprob bet JName.jackpot <;>
  by_cases h3 : (randFloat (rngNext (rngNext (rngNext r)))).1 < jprob bet JName.grand <;>
  simp [rollStep_mk, h0, h1, h2, h3, jSet, jGet]

theorem roll_cur (bet : ℤ) (cur : Jackpots) (r : RngState) (t : JName) :
    jGet (rollJackpots bet cur r).2.1 t =
      if tierDraw r t < jprob bet t then jackpotBase t else jGet cur t := by
  rw [rollJackpots_eq]
  cases t <;> rfl

theorem roll_mem (bet : ℤ) (cur : Jackpots) (r : RngState) (t : JName) :
    t ∈ (rollJackpots bet cur r).1.map JackpotWin.name ↔
      tierDraw r t < jprob bet t := by
  rw [rollJackpots_eq]
  cases t <;> split_ifs <;> simp_all

/-! ## A per-payline view of `_evaluate_lines`

`lineRaw` follows the spec's wording of one payline's evaluation: the
unrounded `bet × paytableMultiplier × rtpMultiplier × freeSpinMultiplier`
for a qualifying line, `none` otherwise; `lineEntry` is the win record the
spec describes, its amount rounded to 2 decimals. -/

def lineRaw (g : Grid) (bet : ℤ) (rtpMul fsMul : ℚ) (pl : ℕ × List ℕ) : Option ℚ :=
  let syms := lineSyms g pl.2
  let first := syms.headD Sym.beetle
  if first = scatterSymbol then none
  else
    let rl := runLenOf syms
    if 3 ≤ rl ∧ inPaytable first then
      let lineWin : ℚ := (bet : ℚ) * payMult first rl * rtpMul * fsMul
      if 0 < lineWin then some lineWin else none
    else none

def lineEntry (g : Grid) (bet : ℤ) (rtpMul fsMul : ℚ) (pl : ℕ × List ℕ) :
    Option LineWin :=
  (lineRaw g bet rtpMul fsMul pl).map fun w =>
    ⟨(lineSyms g pl.2).headD Sym.beetle, runLenOf (lineSyms g pl.2),
     (lineCoords pl.2).take (runLenOf (lineSyms g pl.2)), pl.1, round2 w⟩

theorem lineStep_eq (g : Grid) (bet : ℤ) (rtpMul fsMul : ℚ)
    (d : List LineWin) (t : ℚ) (pl : ℕ × List ℕ) :
    lineStep g bet rtpMul fsMul (d, t) pl =
      (d ++ (lineEntry g bet rtpMul fsMul pl).toList,
       t + (lineRaw g bet rtpMul fsMul pl).getD 0) := by
  simp only [lineStep, lineEntry, lineRaw]
  split_ifs <;> simp

theorem foldl_lineStep (g : Grid) (bet : ℤ) (rtpMul fsMul : ℚ)
    (L : List (ℕ × List ℕ)) :
    ∀ (d : List LineWin) (t : ℚ),
      L.foldl (lineStep g bet rtpMul fsMul) (d, t)
        = (d ++ L.filterMap (lineEntry g bet rtpMul fsMul),
           t + (L.filterMap (lineRaw g bet rtpMul fsMul)).sum) := by
  induction L with
  | nil => intro d t; simp
  | cons p L ih =>
    intro d t
    rw [List.foldl_cons, lineStep_eq, ih, List.filterMap_cons, List.filterMap_cons]
    cases hw : lineRaw g bet rtpMul fsMul p <;>
      simp [lineEntry, hw, add_assoc]

theorem evaluateLines_eq (g : Grid) (bet : ℤ) (rtpMul : ℚ) (usingFree : Bool) :
    evaluateLines g bet rtpMul usingFree
      = (paylines.enum.filterMap
           (lineEntry g bet rtpMul (if usingFree then 2 else 1)),
         round2 (paylines.enum.filterMap
           (lineRaw g bet rtpMul (if usingFree then 2 else 1))).sum) := by
  simp only [evaluateLines, foldl_lineStep]
  simp

/-! ## Line wins are exact cent amounts -/

theorem payMult_den (s : Sym) (l : ℕ) : (payMult s l * 10).den = 1 := by
  unfold payMult
  split_ifs
  · revert s; with_unfolding_all decide
  · revert s; with_unfolding_all decide
  · revert s; with_unfolding_all decide
  · with_unfolding_all decide

theorem isCents_of_den10 {p q : ℚ} (hp : (p * 10).den = 1) (hq : (q * 10).den = 1)
    (b f : ℤ) : IsCents ((b : ℚ) * p * q * (f : ℚ)) := by
  have hp2 : ((p * 10).num : ℚ) = p * 10 := by
    conv_rhs => rw [← Rat.num_div_den (p * 10)]
    rw [hp]
    norm_num
  have hq2 : ((q * 10).num : ℚ) = q * 10 := by
    conv_rhs => rw [← Rat.num_div_den (q * 10)]
    rw [hq]
    norm_num
  refine ⟨b * (p * 10).num * (q * 10).num * f, ?_⟩
  push_cast
  rw [hp2, hq2]
  ring

theorem rtp_den {rtpMul : ℚ}
    (hr : rtpMul = 9 / 10 ∨ rtpMul = 1 ∨ rtpMul = 11 / 10) :
    (rtpMul * 10).den = 1 := by
  rcases hr with rfl | rfl | rfl <;> with_unfolding_all decide

theorem lineRaw_isCents {g : Grid} {bet : ℤ} {rtpMul fsMul : ℚ}
    (hr : rtpMul = 9 / 10 ∨ rtpMul = 1 ∨ rtpMul = 11 / 10)
    (hf : fsMul = 2 ∨ fsMul = 1)
    {pl : ℕ × List ℕ} {w : ℚ}
    (hw : lineRaw g bet rtpMul fsMul pl = some w) :
    IsCents w ∧ 0 < w := by
  simp only [lineRaw] at hw
  split_ifs at hw with h1 h2 h3
  have hww : (bet : ℚ) * payMult ((lineSyms g pl.2).headD Sym.beetle)
      (runLenOf (lineSyms g pl.2)) * rtpMul * fsMul = w := Option.some.inj hw
  subst hww
  refine ⟨?_, h3⟩
  rcases hf with rfl | rfl
  · have h2q : (2 : ℚ) = ((2 : ℤ) : ℚ) := by norm_num
    rw [h2q]
    exact isCents_of_den10 (payMult_den _ _) (rtp_den hr) bet 2
  · have h1q : (1 : ℚ) = ((1 : ℤ) : ℚ) := by norm_num
    rw [h1q]
    exact isCents_of_den10 (payMult_den _ _) (rtp_den hr) bet 1

/-! ## Claim theorems -/

/-- Claim C1: for every 256-bit seed and identical bet sequence, two engines
built with the same configuration and the same seed produce bit-identical
sequences of spin outcomes (grids, wins, jackpots, balances) and identical
final states; the RNG, and hence the whole engine, is a deterministic
function of the seed. -/
theorem reproducible_from_seed (v : Volatility) (m : RtpMode) (seed : List ℕ)
    (bets : List ℤ) (r1 r2 : RngState) (hlen : seed.length = 32)
    (h1 : xoshiroOfSeed seed = some r1) (h2 : xoshiroOfSeed seed = some r2) :
    runOutcomes (mkEngine v m r1) bets = runOutcomes (mkEngine v m r2) bets ∧
    runState (mkEngine v m r1) bets = runState (mkEngine v m r2) bets := by
  rw [h1] at h2
  obtain rfl := Option.some.inj h2
  exact ⟨rfl, rfl⟩

theorem reproducible_from_seed_witness :
    runOutcomes (mkEngine Volatility.MEDIUM RtpMode.STANDARD
        ⟨72340172838076673, 72340172838076673, 72340172838076673, 72340172838076673⟩)
        [10, 7] =
      runOutcomes (mkEngine Volatility.MEDIUM RtpMode.STANDARD
        ⟨72340172838076673, 72340172838076673, 72340172838076673, 72340172838076673⟩)
        [10, 7] ∧
    runState (mkEngine Volatility.MEDIUM RtpMode.STANDARD
        ⟨72340172838076673, 72340172838076673, 72340172838076673, 72340172838076673⟩)
        [10, 7] =
      runState (mkEngine Volatility.MEDIUM RtpMode.STANDARD
        ⟨72340172838076673, 72340172838076673, 72340172838076673, 72340172838076673⟩)
        [10, 7] :=
  reproducible_from_seed Volatility.MEDIUM RtpMode.STANDARD (List.replicate 32 1)
    [10, 7]
    ⟨72340172838076673, 72340172838076673, 72340172838076673, 72340172838076673⟩
    ⟨72340172838076673, 72340172838076673, 72340172838076673, 72340172838076673⟩
    (by decide) (by decide) (by decide)

/-- A reachable-shaped engine state right after a free-spin run has ended:
`free_spins = 0` but `in_free_spins` is still `true`, with only 50 left. -/
def invalidBetState : EngineState :=
  { mkEngine Volatility.MEDIUM RtpMode.STANDARD ⟨1, 2, 3, 4⟩ with
    balance := 50, inFreeSpins := true }

/-- Claim C2 counterexample: bet 100 against balance 50 in base mode is
rejected, but the engine state is NOT left entirely unchanged — `spin` sets
`self.in_free_spins` before validating, so the in-free-spins flag flips. -/
theorem invalid_bet_counterexample :
    (spin invalidBetState 100).1 = SpinResult.err ∧
    (spin invalidBetState 100).2 ≠ invalidBetState := by decide

/-- Claim C2 (amended): with no free spins pending, a bet outside the
denomination set or exceeding the balance yields the error result and leaves
every engine field unchanged except `in_free_spins`, which is set to `false`
(the mode computed for the attempted spin) before validation: no debit, no
RNG draw, no jackpot accrual, no free-spin or session change. -/
theorem invalid_bet_rejected (s : EngineState) (bet : ℤ)
    (h0 : s.freeSpins = 0)
    (hbad : bet ∉ betOptions ∨ s.balance < (bet : ℚ)) :
    spin s bet = (SpinResult.err, { s with inFreeSpins := false }) ∧
    (spin s bet).2.balance = s.balance ∧
    (spin s bet).2.jackpots = s.jackpots ∧
    (spin s bet).2.rng = s.rng ∧
    (spin s bet).2.freeSpins = s.freeSpins ∧
    (spin s bet).2.fsSessionTotal = s.fsSessionTotal ∧
    (spin s bet).2.strip = s.strip ∧
    (spin s bet).2.rtpMul = s.rtpMul := by
  have h := spin_invalid h0 hbad
  refine ⟨h, ?_, ?_, ?_, ?_, ?_, ?_, ?_⟩ <;> rw [h]

theorem invalid_bet_rejected_witness :
    spin invalidBetState 100 = (SpinResult.err, { invalidBetState with inFreeSpins := false }) ∧
    (spin invalidBetState 100).2.balance = invalidBetState.balance ∧
    (spin invalidBetState 100).2.jackpots = invalidBetState.jackpots ∧
    (spin invalidBetState 100).2.rng = invalidBetState.rng ∧
    (spin invalidBetState 100).2.freeSpins = invalidBetState.freeSpins ∧
    (spin invalidBetState 100).2.fsSessionTotal = invalidBetState.fsSessionTotal ∧
    (spin invalidBetState 100).2.strip = invalidBetState.strip ∧
    (spin invalidBetState 100).2.rtpMul = invalidBetState.rtpMul :=
  invalid_bet_rejected invalidBetState 100 (by decide) (by decide)

/-- Claim C6: the jackpot roll checks the 4 tiers independently in order,
drawing one float per tier; a tier wins iff its draw is strictly below the
effective probability `min (basePerTierProbability × clamp(bet/10, 0.1, 5.0))
0.25`; a win awards the tier's full current value rounded to 2 decimals and
resets current to base; several tiers may win on one spin; exactly four
draws are consumed. -/
theorem jackpot_roll_spec (bet : ℤ) (cur : Jackpots) (r : RngState) :
    rollJackpots bet cur r =
      ((if tierDraw r .mini < jprob bet .mini then [⟨.mini, round2 cur.mini⟩] else [])
        ++ ((if tierDraw r .minor < jprob bet .minor then [⟨.minor, round2 cur.minor⟩] else [])
        ++ ((if tierDraw r .jackpot < jprob bet .jackpot then [⟨.jackpot, round2 cur.jackpot⟩] else [])
        ++ (if tierDraw r .grand < jprob bet .grand then [⟨.grand, round2 cur.grand⟩] else []))),
       ⟨if tierDraw r .mini < jprob bet .mini then jackpotBase .mini else cur.mini,
        if tierDraw r .minor < jprob bet .minor then jackpotBase .minor else cur.minor,
        if tierDraw r .jackpot < jprob bet .jackpot then jackpotBase .jackpot else cur.jackpot,
        if tierDraw r .grand < jprob bet .grand then jackpotBase .grand else cur.grand⟩,
       rngNext (rngNext (rngNext (rngNext r)))) ∧
    ∀ t : JName, jprob bet t
      = min (jackpotBaseProb t * max (1 / 10) (min 5 ((bet : ℚ) / 10))) (1 / 4) :=
  ⟨rollJackpots_eq bet cur r, fun _ => rfl⟩

/-- Claim C8: with free spins pending, `spin` never validates the bet and
never errors, for any integer bet whatsoever; yet the supplied bet is the
one fed to payline evaluation (scaling every line win) and to the jackpot
roll (scaling every tier's win probability). -/
theorem freespin_mode_skips_validation (s : EngineState) (bet : ℤ)
    (h : 0 < s.freeSpins) :
    (spin s bet).1 ≠ SpinResult.err ∧
    ∃ o : Outcome, (spin s bet).1 = SpinResult.ok o ∧
      o.winDetails = (evaluateLines (spinGrid s) bet s.rtpMul true).1 ∧
      o.jackpotWins = (rollJackpots bet s.jackpots (rngAfterGrid s)).1 := by
  rw [spin_free h]
  exact ⟨by simp, (spinCore { s with inFreeSpins := true } bet true).1, rfl, rfl, rfl⟩

/-- An engine state five spins into a free-spin session. -/
def freespinState : EngineState :=
  { mkEngine Volatility.MEDIUM RtpMode.STANDARD ⟨1, 2, 3, 4⟩ with freeSpins := 5 }

theorem freespin_mode_skips_validation_witness :
    (spin freespinState (-3)).1 ≠ SpinResult.err ∧
    ∃ o : Outcome, (spin freespinState (-3)).1 = SpinResult.ok o ∧
      o.winDetails = (evaluateLines (spinGrid freespinState) (-3) freespinState.rtpMul true).1 ∧
      o.jackpotWins = (rollJackpots (-3) freespinState.jackpots (rngAfterGrid freespinState)).1 :=
  freespin_mode_skips_validation freespinState (-3) (by decide)

/-- Claim C9: any grid showing strictly more than 5 scatters (the reel strip
keeps its 3 scatter copies adjacent, so one reel window can show 3 of them)
awards exactly the 5-scatter amount, 15 free spins. -/
theorem scatter_award_saturates :
    (∀ g : Grid, 5 < (evaluateScatters g).1.length → (evaluateScatters g).2 = 15) ∧
    (∀ g : Grid, (evaluateScatters g).1.length = 5 → (evaluateScatters g).2 = 15) ∧
    (∃ st : ℕ, st < (buildReelStrip Volatility.MEDIUM).length ∧
      (buildReelStrip Volatility.MEDIUM).getD
        ((st + (buildReelStrip Volatility.MEDIUM).length - 1)
          % (buildReelStrip Volatility.MEDIUM).length) Sym.beetle = scatterSymbol ∧
      (buildReelStrip Volatility.MEDIUM).getD st Sym.beetle = scatterSymbol ∧
      (buildReelStrip Volatility.MEDIUM).getD
        ((st + 1) % (buildReelStrip Volatility.MEDIUM).length) Sym.beetle = scatterSymbol) ∧
    5 < (evaluateScatters
      [List.replicate 5 Sym.freespins, List.replicate 5 Sym.freespins,
       [Sym.bat, Sym.bat, Sym.bat, Sym.bat, Sym.bat]]).1.length ∧
    (evaluateScatters
      [List.replicate 5 Sym.freespins, List.replicate 5 Sym.freespins,
       [Sym.bat, Sym.bat, Sym.bat, Sym.bat, Sym.bat]]).2 = 15 := by
  refine ⟨?_, ?_, ⟨113, by decide, by decide, by decide, by decide⟩, by decide, by decide⟩
  · intro g h
    show scatterAward (scatterPositions g).length = 15
    have h5 : 5 < (scatterPositions g).length := h
    unfold scatterAward
    split_ifs with h1 h2 h3 <;> omega
  · intro g h
    show scatterAward (scatterPositions g).length = 15
    have h5 : (scatterPositions g).length = 5 := h
    unfold scatterAward
    split_ifs with h1 h2 h3 <;> omega

/-- Claim C3: every accepted spin settles the balance exactly:
`new_balance = old_balance - bet (base mode only) + total_win`, with
`total_win = round2(line total + jackpot total)`, everything an exact
two-decimal amount (given the old balance is one, as every reachable
balance is). -/
theorem spin_balance_accounting (s : EngineState) (bet : ℤ)
    (hc : IsCents s.balance)
    (hok : 0 < s.freeSpins ∨ (bet ∈ betOptions ∧ (bet : ℚ) ≤ s.balance)) :
    ∃ o : Outcome, (spin s bet).1 = SpinResult.ok o ∧
      o.win = round2 ((evaluateLines (spinGrid s) bet s.rtpMul
          (decide (0 < s.freeSpins))).2
        + round2 ((o.jackpotWins.map JackpotWin.amount).sum)) ∧
      (spin s bet).2.balance
        = s.balance - (if 0 < s.freeSpins then 0 else (bet : ℚ)) + o.win ∧
      o.balance = (spin s bet).2.balance ∧
      IsCents (spin s bet).2.balance := by
  by_cases hf : 0 < s.freeSpins
  · have hd : decide (0 < s.freeSpins) = true := decide_eq_true hf
    rw [spin_free hf, hd]
    refine ⟨(spinCore { s with inFreeSpins := true } bet true).1, rfl, rfl, ?_, rfl, ?_⟩
    · have hwin : IsCents (spinCore { s with inFreeSpins := true } bet true).1.win := by
        rw [spinCore_win]
        exact round2_isCents _
      calc (spinCore { s with inFreeSpins := true } bet true).2.balance
          = round2 (s.balance + (spinCore { s with inFreeSpins := true } bet true).1.win) :=
            spinCore_state_balance _ _ _
        _ = s.balance + (spinCore { s with inFreeSpins := true } bet true).1.win :=
            round2_eq_of_isCents (isCents_add hc hwin)
        _ = s.balance - (if 0 < s.freeSpins then 0 else (bet : ℚ))
            + (spinCore { s with inFreeSpins := true } bet true).1.win := by
            rw [if_pos hf]; ring
    · rw [spinCore_state_balance]
      exact round2_isCents _
  · have h0 : s.freeSpins = 0 := Nat.eq_zero_of_not_pos hf
    obtain ⟨hb, hle⟩ := hok.resolve_left hf
    have hd : decide (0 < s.freeSpins) = false := decide_eq_false hf
    rw [spin_base h0 hb hle, hd]
    refine ⟨(spinCore (accrue { s with inFreeSpins := false } bet) bet false).1,
      rfl, rfl, ?_, rfl, ?_⟩
    · have hwin : IsCents (spinCore (accrue { s with inFreeSpins := false } bet) bet false).1.win := by
        rw [spinCore_win]
        exact round2_isCents _
      calc (spinCore (accrue { s with inFreeSpins := false } bet) bet false).2.balance
          = round2 ((s.balance - (bet : ℚ))
              + (spinCore (accrue { s with inFreeSpins := false } bet) bet false).1.win) :=
            spinCore_state_balance _ _ _
        _ = (s.balance - (bet : ℚ))
            + (spinCore (accrue { s with inFreeSpins := false } bet) bet false).1.win :=
            round2_eq_of_isCents
              (isCents_add (isCents_sub hc (isCents_intCast bet)) hwin)
        _ = s.balance - (if 0 < s.freeSpins then 0 else (bet : ℚ))
            + (spinCore (accrue { s with inFreeSpins := false } bet) bet false).1.win := by
            rw [if_neg hf]
    · rw [spinCore_state_balance]
      exact round2_isCents _

/-- A fresh engine used as the concrete input of several witnesses. -/
def baseEngine : EngineState := mkEngine Volatility.MEDIUM RtpMode.STANDARD ⟨1, 2, 3, 4⟩

theorem spin_balance_accounting_witness :
    ∃ o : Outcome, (spin baseEngine 10).1 = SpinResult.ok o ∧
      o.win = round2 ((evaluateLines (spinGrid baseEngine) 10 baseEngine.rtpMul
          (decide (0 < baseEngine.freeSpins))).2
        + round2 ((o.jackpotWins.map JackpotWin.amount).sum)) ∧
      (spin baseEngine 10).2.balance
        = baseEngine.balance - (if 0 < baseEngine.freeSpins then 0 else ((10 : ℤ) : ℚ))
          + o.win ∧
      o.balance = (spin baseEngine 10).2.balance ∧
      IsCents (spin baseEngine 10).2.balance :=
  spin_balance_accounting baseEngine 10 ⟨1000000, by norm_num [baseEngine, mkEngine, startBalance]⟩
    (Or.inr ⟨by decide, by norm_num [baseEngine, mkEngine, startBalance]⟩)

/-- Claim C5: scatter evaluation collects exactly the scatter cells of the
3×5 window, awards by the fixed ladder 3 → 10, 4 → 12, 5 → 15 (nothing
below 3), and the award is added onto the pending free-spin entitlement
(minus the one consumed in free-spin mode), never replacing it. -/
theorem scatter_spec :
    (∀ (g : Grid) (rc : ℕ × ℕ),
        rc ∈ (evaluateScatters g).1 ↔
          rc.1 < 3 ∧ rc.2 < 5 ∧ gridGet g rc.1 rc.2 = scatterSymbol) ∧
    (∀ g : Grid, (evaluateScatters g).1.length = 3 → (evaluateScatters g).2 = 10) ∧
    (∀ g : Grid, (evaluateScatters g).1.length = 4 → (evaluateScatters g).2 = 12) ∧
    (∀ g : Grid, (evaluateScatters g).1.length = 5 → (evaluateScatters g).2 = 15) ∧
    (∀ g : Grid, (evaluateScatters g).1.length < 3 → (evaluateScatters g).2 = 0) ∧
    (∀ (s : EngineState) (bet : ℤ), 0 < s.freeSpins →
        (spin s bet).2.freeSpins
          = s.freeSpins + (evaluateScatters (spinGrid s)).2 - 1) ∧
    (∀ (s : EngineState) (bet : ℤ), s.freeSpins = 0 → bet ∈ betOptions →
        (bet : ℚ) ≤ s.balance →
        (spin s bet).2.freeSpins = s.freeSpins + (evaluateScatters (spinGrid s)).2) := by
  refine ⟨?_, ?_, ?_, ?_, ?_, ?_, ?_⟩
  · intro g rc
    simp only [evaluateScatters, scatterPositions, List.mem_flatMap,
      List.mem_filterMap, List.mem_range]
    constructor
    · rintro ⟨r, hr, c, hc, hite⟩
      split_ifs at hite with h
      · obtain rfl := Option.some.inj hite
        exact ⟨hr, hc, h⟩
    · rintro ⟨h1, h2, h3⟩
      exact ⟨rc.1, h1, rc.2, h2, by rw [if_pos h3]⟩
  · intro g h
    show scatterAward (scatterPositions g).length = 10
    have h3 : (scatterPositions g).length = 3 := h
    rw [h3]
    decide
  · intro g h
    show scatterAward (scatterPositions g).length = 12
    have h4 : (scatterPositions g).length = 4 := h
    rw [h4]
    decide
  · intro g h
    show scatterAward (scatterPositions g).length = 15
    have h5 : (scatterPositions g).length = 5 := h
    rw [h5]
    decide
  · intro g h
    show scatterAward (scatterPositions g).length = 0
    have hlt : (scatterPositions g).length < 3 := h
    unfold scatterAward
    rw [if_neg (by omega)]
  · intro s bet h
    rw [spin_free h]
    exact spinCore_state_freeSpins _ _ _
  · intro s bet h0 hb hle
    rw [spin_base h0 hb hle]
    exact spinCore_state_freeSpins _ _ _

/-- For configured RTP multipliers, the per-line sums of rounded wins and of
raw wins agree, and the raw sum is an exact cent amount. -/
theorem lineSums_eq {g : Grid} {bet : ℤ} {rtpMul fsMul : ℚ}
    (hr : rtpMul = 9 / 10 ∨ rtpMul = 1 ∨ rtpMul = 11 / 10)
    (hf : fsMul = 2 ∨ fsMul = 1) (L : List (ℕ × List ℕ)) :
    ((L.filterMap (lineEntry g bet rtpMul fsMul)).map LineWin.win).sum
        = (L.filterMap (lineRaw g bet rtpMul fsMul)).sum ∧
    IsCents (L.filterMap (lineRaw g bet rtpMul fsMul)).sum := by
  induction L with
  | nil => exact ⟨rfl, isCents_zero⟩
  | cons p L ih =>
    rw [List.filterMap_cons, List.filterMap_cons]
    cases hw : lineRaw g bet rtpMul fsMul p with
    | none => simpa [lineEntry, hw] using ih
    | some w =>
      obtain ⟨hcents, -⟩ := lineRaw_isCents hr hf hw
      constructor
      · simp [lineEntry, hw, ih.1, round2_eq_of_isCents hcents]
      · simpa using isCents_add hcents ih.2

/-- The unrounded win amount a qualifying line reports. -/
theorem lineRaw_some_eq {g : Grid} {bet : ℤ} {rtpMul fsMul : ℚ}
    {pl : ℕ × List ℕ} {w : ℚ}
    (hw : lineRaw g bet rtpMul fsMul pl = some w) :
    (bet : ℚ) * payMult ((lineSyms g pl.2).headD Sym.beetle)
      (runLenOf (lineSyms g pl.2)) * rtpMul * fsMul = w := by
  simp only [lineRaw] at hw
  split_ifs at hw
  exact Option.some.inj hw

/-- Claim C4: each payline whose leftmost symbol is not the scatter and whose
left-anchored run is ≥ 3 pays
`round2 (bet × paytableMultiplier[symbol][runLength] × rtpMultiplier ×
freeSpinMultiplier)`; zero-value wins are suppressed; every qualifying line
pays independently with no capping (the reported details are exactly the
per-line records, in payline order); and the reported line total equals the
sum of the individually rounded line wins. -/
theorem payline_spec (g : Grid) (bet : ℤ) (rtpMul : ℚ) (usingFree : Bool)
    (hr : rtpMul = 9 / 10 ∨ rtpMul = 1 ∨ rtpMul = 11 / 10) :
    (evaluateLines g bet rtpMul usingFree).1
        = paylines.enum.filterMap (lineEntry g bet rtpMul (if usingFree then 2 else 1)) ∧
    (evaluateLines g bet rtpMul usingFree).2
        = ((evaluateLines g bet rtpMul usingFree).1.map LineWin.win).sum ∧
    (∀ d ∈ (evaluateLines g bet rtpMul usingFree).1,
        d.win = round2 ((bet : ℚ) * payMult d.character d.count * rtpMul
          * (if usingFree then (2 : ℚ) else 1)) ∧ 0 < d.win) := by
  have hf : (if usingFree then (2 : ℚ) else 1) = 2 ∨ (if usingFree then (2 : ℚ) else 1) = 1 := by
    cases usingFree <;> simp
  have he := evaluateLines_eq g bet rtpMul usingFree
  have h1 : (evaluateLines g bet rtpMul usingFree).1
      = paylines.enum.filterMap (lineEntry g bet rtpMul (if usingFree then 2 else 1)) := by
    rw [he]
  have hsums := @lineSums_eq g bet rtpMul (if usingFree then 2 else 1) hr hf paylines.enum
  refine ⟨h1, ?_, ?_⟩
  · have h2 : (evaluateLines g bet rtpMul usingFree).2
        = round2 (paylines.enum.filterMap
            (lineRaw g bet rtpMul (if usingFree then 2 else 1))).sum := by
      rw [he]
    rw [h2, h1, round2_eq_of_isCents hsums.2, hsums.1]
  · intro d hd
    rw [h1] at hd
    obtain ⟨p, hp, hed⟩ := List.mem_filterMap.mp hd
    rw [lineEntry, Option.map_eq_some'] at hed
    obtain ⟨w, hw, rfl⟩ := hed
    obtain ⟨hcents, hpos⟩ := lineRaw_isCents hr hf hw
    have hform := lineRaw_some_eq hw
    constructor
    · show round2 w = round2 _
      rw [hform]
    · show 0 < round2 w
      rw [round2_eq_of_isCents hcents]
      exact hpos

/-- A hand-constructed grid with witch-witch-witch on the middle payline. -/
def witchGrid : Grid :=
  [[Sym.bat, Sym.ghost, Sym.beetle, Sym.spider, Sym.goblin],
   [Sym.witch, Sym.witch, Sym.witch, Sym.bat, Sym.ghost],
   [Sym.mummy, Sym.vampire, Sym.skeleton, Sym.werewolf, Sym.beetle]]

theorem payline_spec_witness :
    (evaluateLines witchGrid 10 1 false).1
        = paylines.enum.filterMap (lineEntry witchGrid 10 1 (if false then 2 else 1)) ∧
    (evaluateLines witchGrid 10 1 false).2
        = ((evaluateLines witchGrid 10 1 false).1.map LineWin.win).sum ∧
    (∀ d ∈ (evaluateLines witchGrid 10 1 false).1,
        d.win = round2 ((10 : ℤ) * payMult d.character d.count * 1
          * (if false then (2 : ℚ) else 1)) ∧ 0 < d.win) :=
  payline_spec witchGrid 10 1 false (Or.inr (Or.inl rfl))

theorem betOptions_pos {b : ℤ} (hb : b ∈ betOptions) : 1 ≤ b := by
  simp only [betOptions, List.mem_cons, List.not_mem_nil, or_false] at hb
  rcases hb with rfl | rfl | rfl | rfl | rfl | rfl | rfl | rfl <;> norm_num

theorem jGet_base_isCents (t : JName) : IsCents (jackpotBase t) := by
  cases t
  · exact ⟨2000, by norm_num [jackpotBase]⟩
  · exact ⟨5000, by norm_num [jackpotBase]⟩
  · exact ⟨50000, by norm_num [jackpotBase]⟩
  · exact ⟨250000, by norm_num [jackpotBase]⟩

/-- Claim C7: on every accepted base-mode spin each pool's current value
rises by exactly `round2 (0.01 × bet)` unless that tier is won, in which
case it resets to its base; free-spin draws never accrue (unchanged unless
won); and in every state reachable from a fresh engine, `current ≥ base`
for every tier. -/
theorem jackpot_meter_spec :
    (∀ (s : EngineState) (bet : ℤ) (t : JName),
       IsCents (jGet s.jackpots t) → s.freeSpins = 0 → bet ∈ betOptions →
       (bet : ℚ) ≤ s.balance →
       ∃ o : Outcome, (spin s bet).1 = SpinResult.ok o ∧
         (t ∉ o.jackpotWins.map JackpotWin.name →
           jGet (spin s bet).2.jackpots t
             = jGet s.jackpots t + round2 ((bet : ℚ) / 100) ∧
           jGet s.jackpots t ≤ jGet (spin s bet).2.jackpots t) ∧
         (t ∈ o.jackpotWins.map JackpotWin.name →
           jGet (spin s bet).2.jackpots t = jackpotBase t)) ∧
    (∀ (s : EngineState) (bet : ℤ) (t : JName), 0 < s.freeSpins →
       ∃ o : Outcome, (spin s bet).1 = SpinResult.ok o ∧
         (t ∉ o.jackpotWins.map JackpotWin.name →
           jGet (spin s bet).2.jackpots t = jGet s.jackpots t) ∧
         (t ∈ o.jackpotWins.map JackpotWin.name →
           jGet (spin s bet).2.jackpots t = jackpotBase t)) ∧
    (∀ (v : Volatility) (m : RtpMode) (r : RngState) (bets : List ℤ) (t : JName),
       jackpotBase t ≤ jGet (runState (mkEngine v m r) bets).jackpots t) := by
  have haccr : ∀ (s1 : EngineState) (bet : ℤ) (t : JName),
      jGet (accrue s1 bet).jackpots t
        = round2 (jGet s1.jackpots t + round2 ((bet : ℚ) / 100)) := by
    intro s1 bet t
    rw [accrue_jackpots, jGet_jMap]
  have hinc : ∀ bet : ℤ, round2 ((bet : ℚ) / 100) = (bet : ℚ) / 100 :=
    fun bet => round2_eq_of_isCents ⟨bet, rfl⟩
  refine ⟨?_, ?_, ?_⟩
  · intro s bet t hc h0 hb hle
    rw [spin_base h0 hb hle]
    refine ⟨(spinCore (accrue { s with inFreeSpins := false } bet) bet false).1, rfl, ?_, ?_⟩
    · intro hnot
      rw [spinCore_jackpotWins] at hnot
      have hhit : ¬ tierDraw (generateGrid (accrue { s with inFreeSpins := false } bet).strip
          (accrue { s with inFreeSpins := false } bet).rng).2.2 t < jprob bet t :=
        fun hh => hnot ((roll_mem _ _ _ t).mpr hh)
      rw [spinCore_state_jackpots, roll_cur, if_neg hhit, haccr]
      have hsum : IsCents (jGet s.jackpots t + round2 ((bet : ℚ) / 100)) :=
        isCents_add hc (round2_isCents _)
      have hep : jGet ({ s with inFreeSpins := false } : EngineState).jackpots t
          = jGet s.jackpots t := rfl
      rw [hep, round2_eq_of_isCents hsum]
      refine ⟨rfl, ?_⟩
      have hbp : (1 : ℚ) ≤ (bet : ℚ) := by exact_mod_cast betOptions_pos hb
      have : 0 ≤ round2 ((bet : ℚ) / 100) := by
        rw [hinc]
        positivity
      linarith
    · intro hmem
      rw [spinCore_jackpotWins] at hmem
      have hhit := (roll_mem _ _ _ t).mp hmem
      rw [spinCore_state_jackpots, roll_cur, if_pos hhit]
  · intro s bet t hf
    rw [spin_free hf]
    refine ⟨(spinCore { s with inFreeSpins := true } bet true).1, rfl, ?_, ?_⟩
    · intro hnot
      rw [spinCore_jackpotWins] at hnot
      have hhit : ¬ tierDraw (generateGrid ({ s with inFreeSpins := true } : EngineState).strip
          ({ s with inFreeSpins := true } : EngineState).rng).2.2 t < jprob bet t :=
        fun hh => hnot ((roll_mem _ _ _ t).mpr hh)
      rw [spinCore_state_jackpots, roll_cur, if_neg hhit]
    · intro hmem
      rw [spinCore_jackpotWins] at hmem
      have hhit := (roll_mem _ _ _ t).mp hmem
      rw [spinCore_state_jackpots, roll_cur, if_pos hhit]
  · intro v m r bets t
    suffices h : ∀ (bets : List ℤ) (s : EngineState),
        (∀ u, IsCents (jGet s.jackpots u) ∧ jackpotBase u ≤ jGet s.jackpots u) →
        ∀ u, IsCents (jGet (runState s bets).jackpots u) ∧
          jackpotBase u ≤ jGet (runState s bets).jackpots u by
      refine (h bets (mkEngine v m r) ?_ t).2
      intro u
      cases u
      · exact ⟨⟨2000, by norm_num [mkEngine, jGet]⟩, le_refl _⟩
      · exact ⟨⟨5000, by norm_num [mkEngine, jGet]⟩, le_refl _⟩
      · exact ⟨⟨50000, by norm_num [mkEngine, jGet]⟩, le_refl _⟩
      · exact ⟨⟨250000, by norm_num [mkEngine, jGet]⟩, le_refl _⟩
    intro bets
    induction bets with
    | nil => intro s hs; exact hs
    | cons b bs ih =>
      intro s hs
      have hstep : ∀ u, IsCents (jGet (spin s b).2.jackpots u) ∧
          jackpotBase u ≤ jGet (spin s b).2.jackpots u := by
        intro u
        by_cases hf : 0 < s.freeSpins
        · rw [spin_free hf, spinCore_state_jackpots, roll_cur]
          split_ifs
          · exact ⟨jGet_base_isCents u, le_refl _⟩
          · exact hs u
        · have h0 : s.freeSpins = 0 := Nat.eq_zero_of_not_pos hf
          by_cases hval : b ∈ betOptions ∧ (b : ℚ) ≤ s.balance
          · rw [spin_base h0 hval.1 hval.2, spinCore_state_jackpots, roll_cur]
            split_ifs
            · exact ⟨jGet_base_isCents u, le_refl _⟩
            · rw [haccr]
              have hsum : IsCents (jGet s.jackpots u + round2 ((b : ℚ) / 100)) :=
                isCents_add (hs u).1 (round2_isCents _)
              have hep : jGet ({ s with inFreeSpins := false } : EngineState).jackpots u
                  = jGet s.jackpots u := rfl
              rw [hep, round2_eq_of_isCents hsum]
              have hbp : (1 : ℚ) ≤ (b : ℚ) := by exact_mod_cast betOptions_pos hval.1
              have hpos : 0 ≤ round2 ((b : ℚ) / 100) := by
                rw [hinc]
                positivity
              exact ⟨isCents_add (hs u).1 (round2_isCents _), by have := (hs u).2; linarith⟩
          · have hbad : b ∉ betOptions ∨ s.balance < (b : ℚ) := by
              rcases not_and_or.mp hval with hm | hl
              · exact Or.inl hm
              · exact Or.inr (lt_of_not_le hl)
            rw [spin_invalid h0 hbad]
            exact hs u
      have hrun : runState s (b :: bs) = runState (spin s b).2 bs := by
        simp [runState]
      rw [hrun]
      exact ih _ hstep

/-! ## Short seeds: cyclic extension (claim C10) -/

theorem flatten_replicate_getD (l : List ℕ) (k i : ℕ) (hi : i < k * l.length) :
    (List.replicate k l).flatten.getD i 0 = l.getD (i % l.length) 0 := by
  induction k generalizing i with
  | zero => simp at hi
  | succ k ih =>
    rw [List.replicate_succ, List.flatten_cons]
    by_cases h : i < l.length
    · rw [List.getD_append _ _ _ _ h, Nat.mod_eq_of_lt h]
    · push_neg at h
      have hlen : 0 < l.length := by
        rcases Nat.eq_zero_or_pos l.length with h0 | h0
        · rw [h0] at hi
          simp at hi
        · exact h0
      have hi2 : i - l.length < k * l.length := by
        rw [Nat.succ_mul] at hi
        omega
      rw [List.getD_append_right _ _ _ _ h, ih _ hi2, Nat.mod_eq_sub_mod h]

theorem fill_eq_cyclicFill (seed : List ℕ) (hne : seed ≠ []) (hlt : seed.length < 32) :
    (List.replicate (32 / seed.length + 1) seed).flatten.take 32 = cyclicFill seed 32 := by
  have hlen : 0 < seed.length := List.length_pos.mpr hne
  have hk : 32 < (32 / seed.length + 1) * seed.length := by
    have hdm : seed.length * (32 / seed.length) + 32 % seed.length = 32 :=
      Nat.div_add_mod 32 seed.length
    have hm : 32 % seed.length < seed.length := Nat.mod_lt 32 hlen
    rw [Nat.add_mul, one_mul, Nat.mul_comm]
    omega
  have hflatlen : (List.replicate (32 / seed.length + 1) seed).flatten.length
      = (32 / seed.length + 1) * seed.length := by
    simp [List.length_flatten, List.map_replicate, List.sum_replicate, smul_eq_mul]
  apply List.ext_getElem
  · rw [List.length_take, hflatlen, cyclicFill, List.length_map, List.length_range]
    omega
  · intro i h1 h2
    have hi32 : i < 32 := by
      rw [List.length_take, hflatlen] at h1
      omega
    have hifl : i < (List.replicate (32 / seed.length + 1) seed).flatten.length := by
      rw [hflatlen]
      omega
    rw [List.getElem_take]
    have hgd := flatten_replicate_getD seed (32 / seed.length + 1) i (by omega)
    rw [List.getD_eq_getElem _ _ hifl] at hgd
    rw [hgd]
    have hcy : (cyclicFill seed 32)[i] = seed.getD (i % seed.length) 0 := by
      simp [cyclicFill]
    rw [hcy]

/-- Claim C10: a non-empty seed shorter than 32 bytes never fails RNG
construction: the bytes are cyclically repeated to 32, split into four
little-endian 64-bit words, and an all-zero word vector is remapped to
`(1, 0, 0, 0)`. -/
theorem short_seed_cyclic (seed : List ℕ) (hne : seed ≠ []) (hlt : seed.length < 32) :
    xoshiroOfSeed seed = some (bytesToState (cyclicFill seed 32)) ∧
    (∀ sb : List ℕ,
      le64 (sb.take 8) = 0 → le64 ((sb.drop 8).take 8) = 0 →
      le64 ((sb.drop 16).take 8) = 0 → le64 ((sb.drop 24).take 8) = 0 →
      bytesToState sb = ⟨1, 0, 0, 0⟩) := by
  constructor
  · have hlen0 : ¬ seed.length = 0 := fun h => hne (List.length_eq_zero.mp h)
    rw [xoshiroOfSeed, if_neg hlen0, if_pos hlt, fill_eq_cyclicFill seed hne hlt]
  · intro sb h0 h1 h2 h3
    simp [bytesToState, h0, h1, h2, h3]

theorem short_seed_cyclic_witness :
    xoshiroOfSeed [5, 9, 250] = some (bytesToState (cyclicFill [5, 9, 250] 32)) ∧
    (∀ sb : List ℕ,
      le64 (sb.take 8) = 0 → le64 ((sb.drop 8).take 8) = 0 →
      le64 ((sb.drop 16).take 8) = 0 → le64 ((sb.drop 24).take 8) = 0 →
      bytesToState sb = ⟨1, 0, 0, 0⟩) :=
  short_seed_cyclic [5, 9, 250] (by decide) (by decide)

end HauntedHouse
